import Mathlib

/-!
Verification of the apex xentropy binding layer
(`apex/contrib/csrc/xentropy/interface.cpp`) and of the mathematical
contract of the fused softmax cross-entropy kernels it forwards to.

The binding layer (`softmax_xentropy_forward`, `softmax_xentropy_backward`,
the `CHECK_CUDA` / `CHECK_CONTIGUOUS` / `CHECK_INPUT` macros) is embedded
directly from the source.  The CUDA kernels `softmax_xentropy_cuda` and
`softmax_xentropy_backward_cuda` are only forward-declared in the source,
so the binding wrappers are parametric in the kernel they call, and the
kernels' mathematical contract is modelled from the spec over the reals.
-/

namespace ApexXentropy

/-- A tensor as seen by the binding layer: the two metadata bits the
wrapper inspects (`x.type().is_cuda()` and `x.is_contiguous()`), plus an
opaque payload that is forwarded, uninspected, to the kernel. -/
structure ATTensor (α : Type) where
  is_cuda : Bool
  is_contiguous : Bool
  data : α
deriving DecidableEq

/-- The single error kind of the binding layer: `AT_ASSERTM` failing a
placement or layout precondition. -/
inductive TorchError where
  | invalidArgument (msg : String)
deriving DecidableEq

/-- `CHECK_CUDA(x)`: `AT_ASSERTM(x.type().is_cuda(), #x " must be a CUDA tensor")`. -/
def CHECK_CUDA {α : Type} (name : String) (x : ATTensor α) : Except TorchError Unit :=
  match x.is_cuda with
  | true => .ok ()
  | false => .error (.invalidArgument (name ++ " must be a CUDA tensor"))

/-- `CHECK_CONTIGUOUS(x)`: `AT_ASSERTM(x.is_contiguous(), #x " must be contiguous")`. -/
def CHECK_CONTIGUOUS {α : Type} (name : String) (x : ATTensor α) : Except TorchError Unit :=
  match x.is_contiguous with
  | true => .ok ()
  | false => .error (.invalidArgument (name ++ " must be contiguous"))

/-- `CHECK_INPUT(x)`: `CHECK_CUDA(x); CHECK_CONTIGUOUS(x)` — the CUDA check
fires first, and the first failing assertion aborts the call. -/
def CHECK_INPUT {α : Type} (name : String) (x : ATTensor α) : Except TorchError Unit :=
  match CHECK_CUDA name x with
  | .error e => .error e
  | .ok _ => CHECK_CONTIGUOUS name x

/-- The C++ wrapper `softmax_xentropy_forward(input, labels, smoothing,
half_to_float)`.  It runs `CHECK_INPUT(input); CHECK_INPUT(labels);` and
then returns `softmax_xentropy_cuda(input, labels, smoothing,
half_to_float)`.  The CUDA kernel is only forward-declared in the source,
so the wrapper is parametric in the kernel `k` it links against. -/
def softmax_xentropy_forward {α β σ γ : Type} (k : α → β → σ → Bool → γ)
    (input : ATTensor α) (labels : ATTensor β)
    (smoothing : σ) (half_to_float : Bool) : Except TorchError γ :=
  match CHECK_INPUT "input" input with
  | .error e => .error e
  | .ok _ =>
    match CHECK_INPUT "labels" labels with
    | .error e => .error e
    | .ok _ => .ok (k input.data labels.data smoothing half_to_float)

/-- The C++ wrapper `softmax_xentropy_backward(grad_loss, logits,
max_log_sum_exp, labels, smoothing)`.  It runs `CHECK_INPUT(grad_loss);
CHECK_INPUT(max_log_sum_exp); CHECK_INPUT(labels);` — note: no check on
`logits` — and then returns `softmax_xentropy_backward_cuda(grad_loss,
logits, max_log_sum_exp, labels, smoothing)`.  Parametric in the
forward-declared kernel `k`. -/
def softmax_xentropy_backward {γg γl γm γb σ δ : Type} (k : γg → γl → γm → γb → σ → δ)
    (grad_loss : ATTensor γg) (logits : ATTensor γl)
    (max_log_sum_exp : ATTensor γm) (labels : ATTensor γb)
    (smoothing : σ) : Except TorchError δ :=
  match CHECK_INPUT "grad_loss" grad_loss with
  | .error e => .error e
  | .ok _ =>
    match CHECK_INPUT "max_log_sum_exp" max_log_sum_exp with
    | .error e => .error e
    | .ok _ =>
      match CHECK_INPUT "labels" labels with
      | .error e => .error e
      | .ok _ =>
        .ok (k grad_loss.data logits.data max_log_sum_exp.data labels.data smoothing)

/-! ### The mathematical contract of the kernels, modelled from the spec

The CUDA kernels themselves are not in the repository (only their
forward declarations are), so their contract is modelled from the spec
over exact reals.  A batch has `N` rows and `C + 1` classes (the spec
requires `C ≥ 1`, which the `C + 1` index type enforces structurally);
a row of logits is a function `Fin (C+1) → ℝ` and a label is a class
index `Fin (C+1)`. -/

/-- Modelled from the spec: `max_c = max_c logits[i,c]`, the row maximum
used for numerical stabilization. -/
noncomputable def rowMax {C : ℕ} (x : Fin (C + 1) → ℝ) : ℝ :=
  Finset.univ.sup' ⟨0, Finset.mem_univ 0⟩ x

/-- Modelled from the spec: the full per-row log-sum-exp including the max
offset, `LSE_i = max_c + log(Σ_c exp(logits[i,c] - max_c))`. -/
noncomputable def LSE {C : ℕ} (x : Fin (C + 1) → ℝ) : ℝ :=
  rowMax x + Real.log (∑ c, Real.exp (x c - rowMax x))

/-- Modelled from the spec: raw (unsmoothed) per-row cross-entropy,
`CE_i = LSE_i - logits[i, labels[i]]`. -/
noncomputable def CE {C : ℕ} (x : Fin (C + 1) → ℝ) (label : Fin (C + 1)) : ℝ :=
  LSE x - x label

/-- Modelled from the spec: the smoothing term `mean_i`, the average of
`(LSE_i - logits[i,c])` over all classes `c`. -/
noncomputable def mean_i {C : ℕ} (x : Fin (C + 1) → ℝ) : ℝ :=
  (∑ c, (LSE x - x c)) / ((C : ℝ) + 1)

/-- Modelled from the spec: the smoothed per-row loss
`loss_i = (1 - s) * CE_i + s * mean_i`. -/
noncomputable def loss_i {C : ℕ} (x : Fin (C + 1) → ℝ) (label : Fin (C + 1)) (s : ℝ) : ℝ :=
  (1 - s) * CE x label + s * mean_i x

/-- Modelled from the spec: the forward kernel `softmax_xentropy_cuda`,
which is only forward-declared in the source.  Returns the per-row loss
vector and the per-row `LSE_i` saved for backward.  (The
`half_to_float` widening flag only selects an output floating-point
precision and has no meaning in the exact-real model.) -/
noncomputable def softmax_xentropy_cuda {N C : ℕ} (input : Fin N → Fin (C + 1) → ℝ)
    (labels : Fin N → Fin (C + 1)) (smoothing : ℝ) : (Fin N → ℝ) × (Fin N → ℝ) :=
  (fun i => loss_i (input i) (labels i) smoothing, fun i => LSE (input i))

/-- Modelled from the spec: the backward kernel
`softmax_xentropy_backward_cuda`, which is only forward-declared in the
source.
`grad[i,c] = g_i * (softmax(logits)[i,c] - ((1-s) * 1[c == labels[i]] + s / C))`
with `softmax(logits)[i,c] = exp(logits[i,c] - LSE_i)`. -/
noncomputable def softmax_xentropy_backward_cuda {N C : ℕ} (grad_loss : Fin N → ℝ)
    (logits : Fin N → Fin (C + 1) → ℝ) (max_log_sum_exp : Fin N → ℝ)
    (labels : Fin N → Fin (C + 1)) (smoothing : ℝ) : Fin N → Fin (C + 1) → ℝ :=
  fun i c => grad_loss i *
    (Real.exp (logits i c - max_log_sum_exp i) -
      ((1 - smoothing) * (if c = labels i then 1 else 0) + smoothing / ((C : ℝ) + 1)))

/-! ### Helper lemmas about the modelled kernels -/

lemma sum_exp_pos {C : ℕ} (x : Fin (C + 1) → ℝ) : 0 < ∑ j, Real.exp (x j) :=
  Finset.sum_pos (fun j _ => Real.exp_pos (x j)) ⟨0, Finset.mem_univ 0⟩

/-- The max-stabilized log-sum-exp equals the plain log-sum-exp. -/
lemma LSE_eq_log_sum_exp {C : ℕ} (x : Fin (C + 1) → ℝ) :
    LSE x = Real.log (∑ j, Real.exp (x j)) := by
  unfold LSE
  have h1 : ∀ j ∈ Finset.univ, Real.exp (x j - rowMax x) =
      Real.exp (x j) / Real.exp (rowMax x) := fun j _ => Real.exp_sub _ _
  rw [Finset.sum_congr rfl h1, ← Finset.sum_div,
    Real.log_div (ne_of_gt (sum_exp_pos x)) (Real.exp_ne_zero _), Real.log_exp]
  ring

/-- Every logit of a row is at most the row's log-sum-exp. -/
lemma le_LSE {C : ℕ} (x : Fin (C + 1) → ℝ) (c : Fin (C + 1)) : x c ≤ LSE x := by
  rw [LSE_eq_log_sum_exp]
  have h1 : Real.exp (x c) ≤ ∑ j, Real.exp (x j) :=
    Finset.single_le_sum (fun j _ => (Real.exp_pos (x j)).le) (Finset.mem_univ c)
  calc x c = Real.log (Real.exp (x c)) := (Real.log_exp _).symm
    _ ≤ Real.log (∑ j, Real.exp (x j)) := Real.log_le_log (Real.exp_pos _) h1

/-- Summing `exp` over a row updated at one coordinate isolates that
coordinate's term. -/
lemma sum_exp_update {C : ℕ} (x : Fin (C + 1) → ℝ) (c : Fin (C + 1)) (t : ℝ) :
    ∑ j, Real.exp (Function.update x c t j) =
      Real.exp t + ∑ j in Finset.univ \ {c}, Real.exp (x j) := by
  calc ∑ j, Real.exp (Function.update x c t j)
      = ∑ j, Function.update (fun j => Real.exp (x j)) c (Real.exp t) j :=
        Finset.sum_congr rfl fun j _ => Function.apply_update (fun _ => Real.exp) x c t j
    _ = Real.exp t + ∑ j in Finset.univ \ {c}, Real.exp (x j) :=
        Finset.sum_update_of_mem (Finset.mem_univ c) (fun j => Real.exp (x j)) (Real.exp t)

/-! ### Theorems about the validation layer -/

/-- C2: for every call to `forward`, if the logits tensor or the labels
tensor is not in CUDA device memory or is not contiguous, the call fails
with an `InvalidArgument` error, and the result is the same whichever
kernel the wrapper links against — the compute kernel is never invoked
and no partial result is returned. -/
theorem forward_invalid_input_raises {α β σ γ : Type}
    (k l : α → β → σ → Bool → γ)
    (input : ATTensor α) (labels : ATTensor β) (smoothing : σ) (half_to_float : Bool)
    (h : input.is_cuda = false ∨ input.is_contiguous = false ∨
         labels.is_cuda = false ∨ labels.is_contiguous = false) :
    (∃ msg, softmax_xentropy_forward k input labels smoothing half_to_float =
      .error (.invalidArgument msg)) ∧
    softmax_xentropy_forward k input labels smoothing half_to_float =
      softmax_xentropy_forward l input labels smoothing half_to_float := by
  cases h1 : input.is_cuda <;> cases h2 : input.is_contiguous <;>
    cases h3 : labels.is_cuda <;> cases h4 : labels.is_contiguous <;>
      simp_all [softmax_xentropy_forward, CHECK_INPUT, CHECK_CUDA, CHECK_CONTIGUOUS]

/-- Witness for `forward_invalid_input_raises` at a concrete non-CUDA
input tensor and two concretely different kernels. -/
theorem forward_invalid_input_raises_witness :
    ((⟨false, true, (0 : ℕ)⟩ : ATTensor ℕ).is_cuda = false ∨
     (⟨false, true, (0 : ℕ)⟩ : ATTensor ℕ).is_contiguous = false ∨
     (⟨true, true, (0 : ℕ)⟩ : ATTensor ℕ).is_cuda = false ∨
     (⟨true, true, (0 : ℕ)⟩ : ATTensor ℕ).is_contiguous = false) ∧
    ((∃ msg, softmax_xentropy_forward (fun a _ _ _ => a)
        (⟨false, true, (0 : ℕ)⟩ : ATTensor ℕ) (⟨true, true, (0 : ℕ)⟩ : ATTensor ℕ) (0 : ℕ) true =
        .error (.invalidArgument msg)) ∧
      softmax_xentropy_forward (fun a _ _ _ => a)
        (⟨false, true, (0 : ℕ)⟩ : ATTensor ℕ) (⟨true, true, (0 : ℕ)⟩ : ATTensor ℕ) (0 : ℕ) true =
      softmax_xentropy_forward (fun a _ _ _ => a + 1)
        (⟨false, true, (0 : ℕ)⟩ : ATTensor ℕ) (⟨true, true, (0 : ℕ)⟩ : ATTensor ℕ) (0 : ℕ) true) :=
  ⟨Or.inl rfl,
   forward_invalid_input_raises (fun a _ _ _ => a) (fun a _ _ _ => a + 1)
     ⟨false, true, 0⟩ ⟨true, true, 0⟩ 0 true (Or.inl rfl)⟩

/-- C10: the backward wrapper performs no placement or contiguity check on
`logits`: whenever `grad_loss`, `max_log_sum_exp` and `labels` pass their
checks, the call succeeds and forwards `logits` to the kernel, whatever
the metadata of `logits` (in particular non-CUDA or non-contiguous). -/
theorem backward_skips_logits_check {γg γl γm γb σ δ : Type}
    (k : γg → γl → γm → γb → σ → δ)
    (grad_loss : ATTensor γg) (logits : ATTensor γl)
    (max_log_sum_exp : ATTensor γm) (labels : ATTensor γb) (smoothing : σ)
    (hg1 : grad_loss.is_cuda = true) (hg2 : grad_loss.is_contiguous = true)
    (hm1 : max_log_sum_exp.is_cuda = true) (hm2 : max_log_sum_exp.is_contiguous = true)
    (hl1 : labels.is_cuda = true) (hl2 : labels.is_contiguous = true) :
    softmax_xentropy_backward k grad_loss logits max_log_sum_exp labels smoothing =
      .ok (k grad_loss.data logits.data max_log_sum_exp.data labels.data smoothing) := by
  simp [softmax_xentropy_backward, CHECK_INPUT, CHECK_CUDA, CHECK_CONTIGUOUS,
    hg1, hg2, hm1, hm2, hl1, hl2]

/-- Witness for `backward_skips_logits_check` with a logits tensor that is
neither CUDA nor contiguous: validation passes and the kernel value is
returned. -/
theorem backward_skips_logits_check_witness :
    (⟨true, true, (0 : ℕ)⟩ : ATTensor ℕ).is_cuda = true ∧
    (⟨true, true, (0 : ℕ)⟩ : ATTensor ℕ).is_contiguous = true ∧
    softmax_xentropy_backward (fun _ b _ _ _ => b)
      (⟨true, true, (0 : ℕ)⟩ : ATTensor ℕ) (⟨false, false, (7 : ℕ)⟩ : ATTensor ℕ)
      (⟨true, true, (0 : ℕ)⟩ : ATTensor ℕ) (⟨true, true, (0 : ℕ)⟩ : ATTensor ℕ) (0 : ℕ) =
      .ok ((⟨false, false, (7 : ℕ)⟩ : ATTensor ℕ).data) :=
  ⟨rfl, rfl,
   backward_skips_logits_check (fun _ b _ _ _ => b)
     ⟨true, true, 0⟩ ⟨false, false, 7⟩ ⟨true, true, 0⟩ ⟨true, true, 0⟩ 0
     rfl rfl rfl rfl rfl rfl⟩

/-- C1 counterexample: a concrete backward call whose `logits` tensor is
neither a CUDA tensor nor contiguous, yet the call returns `.ok` — no
`InvalidArgument` error is raised, refuting the claim that a violation by
the logits argument raises the error. -/
theorem backward_logits_unchecked_counterexample :
    softmax_xentropy_backward (fun a _ _ _ _ => a)
      (⟨true, true, (0 : ℕ)⟩ : ATTensor ℕ) (⟨false, false, (0 : ℕ)⟩ : ATTensor ℕ)
      (⟨true, true, (0 : ℕ)⟩ : ATTensor ℕ) (⟨true, true, (0 : ℕ)⟩ : ATTensor ℕ) (0 : ℕ) =
      .ok 0 := rfl

/-- C1 (amended): for every call to `backward`, the upstream gradient
`grad_loss`, the saved log-sum-exp `max_log_sum_exp` and the labels — but
not the logits — are checked to be CUDA tensors and contiguous, and a
violation by any of these three raises the `InvalidArgument` error before
the kernel is invoked (the result is kernel-independent). -/
theorem backward_invalid_input_raises {γg γl γm γb σ δ : Type}
    (k l : γg → γl → γm → γb → σ → δ)
    (grad_loss : ATTensor γg) (logits : ATTensor γl)
    (max_log_sum_exp : ATTensor γm) (labels : ATTensor γb) (smoothing : σ)
    (h : grad_loss.is_cuda = false ∨ grad_loss.is_contiguous = false ∨
         max_log_sum_exp.is_cuda = false ∨ max_log_sum_exp.is_contiguous = false ∨
         labels.is_cuda = false ∨ labels.is_contiguous = false) :
    (∃ msg, softmax_xentropy_backward k grad_loss logits max_log_sum_exp labels smoothing =
      .error (.invalidArgument msg)) ∧
    softmax_xentropy_backward k grad_loss logits max_log_sum_exp labels smoothing =
      softmax_xentropy_backward l grad_loss logits max_log_sum_exp labels smoothing := by
  cases h1 : grad_loss.is_cuda <;> cases h2 : grad_loss.is_contiguous <;>
    cases h3 : max_log_sum_exp.is_cuda <;> cases h4 : max_log_sum_exp.is_contiguous <;>
      cases h5 : labels.is_cuda <;> cases h6 : labels.is_contiguous <;>
        simp_all [softmax_xentropy_backward, CHECK_INPUT, CHECK_CUDA, CHECK_CONTIGUOUS]

/-- Witness for `backward_invalid_input_raises` at a concrete
non-contiguous `grad_loss` tensor and two concretely different kernels. -/
theorem backward_invalid_input_raises_witness :
    ((⟨true, false, (0 : ℕ)⟩ : ATTensor ℕ).is_cuda = false ∨
     (⟨true, false, (0 : ℕ)⟩ : ATTensor ℕ).is_contiguous = false ∨
     (⟨true, true, (0 : ℕ)⟩ : ATTensor ℕ).is_cuda = false ∨
     (⟨true, true, (0 : ℕ)⟩ : ATTensor ℕ).is_contiguous = false ∨
     (⟨true, true, (0 : ℕ)⟩ : ATTensor ℕ).is_cuda = false ∨
     (⟨true, true, (0 : ℕ)⟩ : ATTensor ℕ).is_contiguous = false) ∧
    ((∃ msg, softmax_xentropy_backward (fun a _ _ _ _ => a)
        (⟨true, false, (0 : ℕ)⟩ : ATTensor ℕ) (⟨true, true, (0 : ℕ)⟩ : ATTensor ℕ)
        (⟨true, true, (0 : ℕ)⟩ : ATTensor ℕ) (⟨true, true, (0 : ℕ)⟩ : ATTensor ℕ) (0 : ℕ) =
        .error (.invalidArgument msg)) ∧
      softmax_xentropy_backward (fun a _ _ _ _ => a)
        (⟨true, false, (0 : ℕ)⟩ : ATTensor ℕ) (⟨true, true, (0 : ℕ)⟩ : ATTensor ℕ)
        (⟨true, true, (0 : ℕ)⟩ : ATTensor ℕ) (⟨true, true, (0 : ℕ)⟩ : ATTensor ℕ) (0 : ℕ) =
      softmax_xentropy_backward (fun a _ _ _ _ => a + 1)
        (⟨true, false, (0 : ℕ)⟩ : ATTensor ℕ) (⟨true, true, (0 : ℕ)⟩ : ATTensor ℕ)
        (⟨true, true, (0 : ℕ)⟩ : ATTensor ℕ) (⟨true, true, (0 : ℕ)⟩ : ATTensor ℕ) (0 : ℕ)) :=
  ⟨Or.inr (Or.inl rfl),
   backward_invalid_input_raises (fun a _ _ _ _ => a) (fun a _ _ _ _ => a + 1)
     ⟨true, false, 0⟩ ⟨true, true, 0⟩ ⟨true, true, 0⟩ ⟨true, true, 0⟩ 0
     (Or.inr (Or.inl rfl))⟩

/-! ### Theorems about the modelled kernel contract -/

/-- C3: for every row `i` of the forward kernel's output, the loss equals
`(1 - s) * CE_i + s * mean_i` with
`LSE_i = max_c + log(Σ_c exp(logits[i,c] - max_c))`,
`CE_i = LSE_i - logits[i, labels[i]]`, and `mean_i` the average of
`(LSE_i - logits[i,c])` over all classes, and the per-row `LSE_i` is
returned as the saved statistic. -/
theorem forward_loss_formula {N C : ℕ} (input : Fin N → Fin (C + 1) → ℝ)
    (labels : Fin N → Fin (C + 1)) (s : ℝ) :
    softmax_xentropy_cuda input labels s =
      (fun i =>
        (1 - s) * ((rowMax (input i) +
            Real.log (∑ c, Real.exp (input i c - rowMax (input i)))) - input i (labels i)) +
        s * ((∑ c, ((rowMax (input i) +
            Real.log (∑ d, Real.exp (input i d - rowMax (input i)))) - input i c)) /
          ((C : ℝ) + 1)),
       fun i => rowMax (input i) +
         Real.log (∑ c, Real.exp (input i c - rowMax (input i)))) := rfl

/-- C4: the backward kernel's output is
`grad[i,c] = g_i * (softmax(logits)[i,c] - ((1-s) * 1[c == labels[i]] + s / C))`
with `softmax(logits)[i,c] = exp(logits[i,c] - LSE_i)`; its type
`Fin N → Fin (C+1) → ℝ` is the shape of the logits. -/
theorem backward_grad_formula {N C : ℕ} (g : Fin N → ℝ)
    (logits : Fin N → Fin (C + 1) → ℝ) (lse : Fin N → ℝ)
    (labels : Fin N → Fin (C + 1)) (s : ℝ) (i : Fin N) (c : Fin (C + 1)) :
    softmax_xentropy_backward_cuda g logits lse labels s i c =
      g i * (Real.exp (logits i c - lse i) -
        ((1 - s) * (if c = labels i then 1 else 0) + s / ((C : ℝ) + 1))) := rfl

/-- C5: with smoothing factor `s = 0`, the forward loss is exactly the
standard cross-entropy `LSE_i - logits[i, labels[i]]`. -/
theorem forward_smoothing_zero {N C : ℕ} (input : Fin N → Fin (C + 1) → ℝ)
    (labels : Fin N → Fin (C + 1)) (i : Fin N) :
    (softmax_xentropy_cuda input labels 0).1 i = LSE (input i) - input i (labels i) := by
  simp only [softmax_xentropy_cuda, loss_i, CE]
  ring

/-- C9: with smoothing factor `s = 1`, the forward loss ignores the labels:
any two label vectors give the same per-row loss, which equals the mean
over classes of `LSE_i - logits[i,c]`. -/
theorem forward_smoothing_one_label_independent {N C : ℕ}
    (input : Fin N → Fin (C + 1) → ℝ) (labels1 labels2 : Fin N → Fin (C + 1)) (i : Fin N) :
    (softmax_xentropy_cuda input labels1 1).1 i = (softmax_xentropy_cuda input labels2 1).1 i ∧
    (softmax_xentropy_cuda input labels1 1).1 i =
      (∑ c, (LSE (input i) - input i c)) / ((C : ℝ) + 1) := by
  constructor <;> (simp only [softmax_xentropy_cuda, loss_i, CE, mean_i]; ring)

/-- C8: applying a row permutation `p` jointly to logits, labels, the
upstream gradient and the saved statistic permutes the forward loss, the
saved LSE and the backward gradient outputs identically: row `i` of each
output depends only on row `i` of the inputs. -/
theorem row_permutation_equivariance {N C : ℕ} (p : Equiv.Perm (Fin N))
    (input : Fin N → Fin (C + 1) → ℝ) (labels : Fin N → Fin (C + 1))
    (g : Fin N → ℝ) (lse : Fin N → ℝ) (s : ℝ) :
    (softmax_xentropy_cuda (fun i => input (p i)) (fun i => labels (p i)) s).1 =
      (fun i => (softmax_xentropy_cuda input labels s).1 (p i)) ∧
    (softmax_xentropy_cuda (fun i => input (p i)) (fun i => labels (p i)) s).2 =
      (fun i => (softmax_xentropy_cuda input labels s).2 (p i)) ∧
    softmax_xentropy_backward_cuda (fun i => g (p i)) (fun i => input (p i))
        (fun i => lse (p i)) (fun i => labels (p i)) s =
      (fun i => softmax_xentropy_backward_cuda g input lse labels s (p i)) :=
  ⟨rfl, rfl, rfl⟩

/-- C6: with smoothing factor `s ∈ [0,1]`, every per-row forward loss is
non-negative (finiteness is inherent to the exact-real model: the loss is
a real number for all finite real logits). -/
theorem forward_loss_nonneg {N C : ℕ} (input : Fin N → Fin (C + 1) → ℝ)
    (labels : Fin N → Fin (C + 1)) (s : ℝ) (hs0 : 0 ≤ s) (hs1 : s ≤ 1) (i : Fin N) :
    0 ≤ (softmax_xentropy_cuda input labels s).1 i := by
  show 0 ≤ (1 - s) * CE (input i) (labels i) + s * mean_i (input i)
  have hCE : 0 ≤ CE (input i) (labels i) := sub_nonneg.2 (le_LSE (input i) (labels i))
  have hmean : 0 ≤ mean_i (input i) := by
    apply div_nonneg
    · exact Finset.sum_nonneg fun c _ => sub_nonneg.2 (le_LSE (input i) c)
    · positivity
  exact add_nonneg (mul_nonneg (by linarith) hCE) (mul_nonneg hs0 hmean)

lemma hasDerivAt_log_exp_add (S t : ℝ) (hS : 0 ≤ S) :
    HasDerivAt (fun u => Real.log (Real.exp u + S)) (Real.exp t / (Real.exp t + S)) t := by
  have h1 : HasDerivAt (fun u => Real.exp u + S) (Real.exp t) t :=
    (Real.hasDerivAt_exp t).add_const S
  have hne : Real.exp t + S ≠ 0 := by positivity
  exact h1.log hne

/-- The per-row loss, as a function of the single logit `x c`, is
differentiable at `x c` with derivative
`softmax(x)[c] - ((1-s) * 1[c = l] + s / C)`. -/
lemma hasDerivAt_loss_update {C : ℕ} (x : Fin (C + 1) → ℝ) (l c : Fin (C + 1)) (s : ℝ) :
    HasDerivAt (fun t => loss_i (Function.update x c t) l s)
      (Real.exp (x c - LSE x) -
        ((1 - s) * (if c = l then 1 else 0) + s / ((C : ℝ) + 1)))
      (x c) := by
  have hS : (0 : ℝ) ≤ ∑ j in Finset.univ \ {c}, Real.exp (x j) :=
    Finset.sum_nonneg fun j _ => (Real.exp_pos (x j)).le
  have hfun : (fun t => loss_i (Function.update x c t) l s)
      = fun t => (1 - s) * (Real.log (Real.exp t + ∑ j in Finset.univ \ {c}, Real.exp (x j)) -
          (if l = c then t else x l))
        + s * ((((C : ℝ) + 1) *
            Real.log (Real.exp t + ∑ j in Finset.univ \ {c}, Real.exp (x j)) -
            (t + ∑ j in Finset.univ \ {c}, x j)) / ((C : ℝ) + 1)) := by
    funext t
    have hLSE : LSE (Function.update x c t) =
        Real.log (Real.exp t + ∑ j in Finset.univ \ {c}, Real.exp (x j)) := by
      rw [LSE_eq_log_sum_exp, sum_exp_update]
    have hval : Function.update x c t l = if l = c then t else x l :=
      Function.update_apply x c t l
    have hsum : ∑ j, Function.update x c t j = t + ∑ j in Finset.univ \ {c}, x j :=
      Finset.sum_update_of_mem (Finset.mem_univ c) x t
    have hmean : ∑ j, (LSE (Function.update x c t) - Function.update x c t j)
        = ((C : ℝ) + 1) *
            Real.log (Real.exp t + ∑ j in Finset.univ \ {c}, Real.exp (x j)) -
          (t + ∑ j in Finset.univ \ {c}, x j) := by
      rw [Finset.sum_sub_distrib, Finset.sum_const, Finset.card_univ, Fintype.card_fin,
        nsmul_eq_mul, hLSE, hsum]
      push_cast
      ring
    simp only [loss_i, CE, mean_i, hval]
    rw [hmean, hLSE]
  have hL : HasDerivAt
      (fun u => Real.log (Real.exp u + ∑ j in Finset.univ \ {c}, Real.exp (x j)))
      (Real.exp (x c) / (Real.exp (x c) + ∑ j in Finset.univ \ {c}, Real.exp (x j)))
      (x c) := hasDerivAt_log_exp_add _ (x c) hS
  have hind : HasDerivAt (fun t => if l = c then t else x l)
      (if c = l then 1 else 0) (x c) := by
    by_cases h : l = c
    · simpa [h] using hasDerivAt_id (x c)
    · simpa [h, Ne.symm h] using hasDerivAt_const (x c) (x l)
  have hlin : HasDerivAt (fun t : ℝ => t + ∑ j in Finset.univ \ {c}, x j) 1 (x c) :=
    (hasDerivAt_id (x c)).add_const _
  have h1 := (hL.sub hind).const_mul (1 - s)
  have h2 := (((hL.const_mul ((C : ℝ) + 1)).sub hlin).div_const ((C : ℝ) + 1)).const_mul s
  have hsum_exp : Real.exp (x c) + ∑ j in Finset.univ \ {c}, Real.exp (x j) =
      ∑ j, Real.exp (x j) := by
    have h := sum_exp_update x c (x c)
    rw [Function.update_eq_self] at h
    exact h.symm
  have hD : Real.exp (x c) / (Real.exp (x c) + ∑ j in Finset.univ \ {c}, Real.exp (x j)) =
      Real.exp (x c - LSE x) := by
    rw [Real.exp_sub, LSE_eq_log_sum_exp, Real.exp_log (sum_exp_pos x), hsum_exp]
  have hC1 : ((C : ℝ) + 1) ≠ 0 := by positivity
  have hval2 : Real.exp (x c - LSE x) -
      ((1 - s) * (if c = l then 1 else 0) + s / ((C : ℝ) + 1))
      = (1 - s) *
          (Real.exp (x c) / (Real.exp (x c) + ∑ j in Finset.univ \ {c}, Real.exp (x j)) -
            (if c = l then 1 else 0))
        + s * ((((C : ℝ) + 1) *
            (Real.exp (x c) / (Real.exp (x c) + ∑ j in Finset.univ \ {c}, Real.exp (x j))) -
            1) / ((C : ℝ) + 1)) := by
    rw [hD]
    by_cases h : c = l
    · subst h
      simp only [if_pos rfl]
      field_simp
      ring
    · simp only [if_neg h]
      field_simp
      ring
  rw [hfun, hval2]
  exact h1.add h2

/-- C7: for smoothing `s ∈ [0,1]`, the backward kernel's output with
upstream gradient `g_i = 1` and the matching saved statistic
`LSE (logits i)` is the partial derivative of the forward loss of row `i`
with respect to the logit `logits[i,c]`. -/
theorem backward_matches_forward_derivative {N C : ℕ}
    (logits : Fin N → Fin (C + 1) → ℝ) (labels : Fin N → Fin (C + 1)) (s : ℝ)
    (hs0 : 0 ≤ s) (hs1 : s ≤ 1) (i : Fin N) (c : Fin (C + 1)) :
    HasDerivAt
      (fun t => (softmax_xentropy_cuda
        (Function.update logits i (Function.update (logits i) c t)) labels s).1 i)
      (softmax_xentropy_backward_cuda (fun _ => 1) logits
        (fun j => LSE (logits j)) labels s i c)
      (logits i c) := by
  have hrow : (fun t => (softmax_xentropy_cuda
      (Function.update logits i (Function.update (logits i) c t)) labels s).1 i)
      = fun t => loss_i (Function.update (logits i) c t) (labels i) s := by
    funext t
    simp [softmax_xentropy_cuda, Function.update_same]
  rw [hrow]
  simpa [softmax_xentropy_backward_cuda] using
    hasDerivAt_loss_update (logits i) (labels i) c s

/-- Witness for `backward_matches_forward_derivative` at one row, one
class, zero logits and smoothing one half. -/
theorem backward_matches_forward_derivative_witness :
    (0 : ℝ) ≤ 1 / 2 ∧ (1 / 2 : ℝ) ≤ 1 ∧
    HasDerivAt
      (fun t => (softmax_xentropy_cuda
        (Function.update ((fun _ _ => (0 : ℝ)) : Fin (0 + 1) → Fin (0 + 1) → ℝ) 0
          (Function.update (((fun _ _ => (0 : ℝ)) : Fin (0 + 1) → Fin (0 + 1) → ℝ) 0) 0 t))
        (fun _ => (0 : Fin (0 + 1))) (1 / 2)).1 0)
      (softmax_xentropy_backward_cuda (fun _ => 1)
        ((fun _ _ => (0 : ℝ)) : Fin (0 + 1) → Fin (0 + 1) → ℝ)
        (fun j => LSE (((fun _ _ => (0 : ℝ)) : Fin (0 + 1) → Fin (0 + 1) → ℝ) j))
        (fun _ => (0 : Fin (0 + 1))) (1 / 2) 0 0)
      (((fun _ _ => (0 : ℝ)) : Fin (0 + 1) → Fin (0 + 1) → ℝ) 0 0) :=
  ⟨by norm_num, by norm_num,
   backward_matches_forward_derivative (N := 1) (C := 0) (fun _ _ => 0) (fun _ => 0)
     (1 / 2) (by norm_num) (by norm_num) 0 0⟩

/-- Witness for `forward_loss_nonneg` at one row, one class, zero logits
and smoothing one half. -/
theorem forward_loss_nonneg_witness :
    (0 : ℝ) ≤ 1 / 2 ∧ (1 / 2 : ℝ) ≤ 1 ∧
    0 ≤ (softmax_xentropy_cuda (fun (_ : Fin 1) (_ : Fin 1) => (0 : ℝ))
      (fun _ => 0) (1 / 2)).1 0 :=
  ⟨by norm_num, by norm_num,
   forward_loss_nonneg (C := 0) (fun _ _ => 0) (fun _ => 0) (1 / 2)
     (by norm_num) (by norm_num) 0⟩

end ApexXentropy
